import Mathlib

/-!
Verification of the moiR single-chain MCMC core (src/chain.cpp) against its
natural-language specification.  The C++ code is shallowly embedded: doubles
become real numbers, `std::vector` becomes `List`, the host-supplied lgamma
and sampling-depth lookup tables become function parameters, and all random
draws produced by the `Sampler` are passed in as explicit arguments.
-/

namespace MoiR

noncomputable section

/-- `UNDERFLO` from mcmc_utils.h. -/
def UNDERFLO : ℝ := 1e-100

/-- Immutable configuration consumed by the chain (`Parameters`). -/
structure Parameters where
  max_coi : ℤ
  max_eps_pos : ℝ
  max_eps_neg : ℝ
  importance_sampling_depth : ℕ

/-- Host-supplied lookup tables (`Lookup`): the lgamma table and the per
(COI, number-of-alleles) sampling-depth cap. -/
structure Lookup where
  lgamma : ℕ → ℝ
  sampling_depth : ℕ → ℕ → ℕ

/-- Observation container (`GenotypingData`): `observed_alleles` is indexed
locus, then sample, then allele. -/
structure GenotypingData where
  num_loci : ℕ
  num_samples : ℕ
  observed_alleles : List (List (List ℤ))

/-- `Chain::reweight_allele_frequencies`, chain.cpp lines 200-214, first loop:
`res[i] = af[i] * ((obs[i]*(1-eps_neg)) + ((1-obs[i])*eps_neg)) + eps_pos + 1e-6`. -/
def reweight_raw (af : List ℝ) (obs : List ℤ) (eps_neg eps_pos : ℝ) : List ℝ :=
  (List.range af.length).map (fun i =>
    af.getD i 0 * (((obs.getD i 0 : ℝ)) * (1 - eps_neg)
      + (1 - (obs.getD i 0 : ℝ)) * eps_neg) + eps_pos + 1e-6)

/-- `Chain::reweight_allele_frequencies`, chain.cpp lines 200-214: the raw
reweighted vector is normalized by multiplying with `1 / res_sum`. -/
def reweight_allele_frequencies (af : List ℝ) (obs : List ℤ)
    (eps_neg eps_pos : ℝ) : List ℝ :=
  let res := reweight_raw af obs eps_neg eps_pos
  res.map (fun x => x * (1 / res.sum))

/-- One entry of `Chain::calc_genotype_log_pmf` (chain.cpp lines 216-239):
start from `lgamma[coi+1]` and, for every allele with positive count, add
`g_a * log(af_a + 1e-12) - lgamma[g_a + 1]`. -/
def calc_genotype_log_pmf_one (lg : ℕ → ℝ) (coi : ℤ) (af : List ℝ)
    (g : List ℤ) : ℝ :=
  lg (coi.toNat + 1) +
    ((List.range af.length).map (fun i =>
      if 0 < g.getD i 0 then
        (g.getD i 0 : ℝ) * Real.log (af.getD i 0 + 1e-12)
          - lg ((g.getD i 0).toNat + 1)
      else 0)).sum

/-- `Chain::calc_genotype_log_pmf` (chain.cpp lines 216-239) on the first
`num_genotypes` sampled genotypes. -/
def calc_genotype_log_pmf (lg : ℕ → ℝ) (genotypes : List (List ℤ)) (coi : ℤ)
    (af : List ℝ) (num_genotypes : ℕ) : List ℝ :=
  (List.range num_genotypes).map (fun j =>
    calc_genotype_log_pmf_one lg coi af (genotypes.getD j []))

/-- One entry of `Chain::calc_obs_genotype_lliks` (chain.cpp lines 241-269):
sum over alleles of the emission table, with the C truthiness tests
`if(obs_genotype[j])` and `if(true_genotypes[i][j])`. -/
def calc_obs_genotype_llik_one (obs : List ℤ) (g : List ℤ)
    (eps_neg eps_pos : ℝ) : ℝ :=
  ((List.range g.length).map (fun j =>
    if obs.getD j 0 ≠ 0 then
      if g.getD j 0 ≠ 0 then (g.getD j 0 : ℝ) * Real.log (1 - eps_neg)
      else Real.log eps_pos
    else
      if g.getD j 0 ≠ 0 then (g.getD j 0 : ℝ) * Real.log eps_neg
      else Real.log (1 - eps_pos))).sum

/-- `Chain::calc_obs_genotype_lliks` (chain.cpp lines 241-269) on the first
`num_genotypes` sampled genotypes. -/
def calc_obs_genotype_lliks (obs : List ℤ) (true_genotypes : List (List ℤ))
    (eps_neg eps_pos : ℝ) (num_genotypes : ℕ) : List ℝ :=
  (List.range num_genotypes).map (fun i =>
    calc_obs_genotype_llik_one obs (true_genotypes.getD i []) eps_neg eps_pos)

/-- `Chain::calc_genotype_marginal_llik` (chain.cpp lines 271-290).  The
multinomial genotype draws produced by `Sampler::sample_genotype` are the
`draws` argument. -/
def calc_genotype_marginal_llik (P : Parameters) (lk : Lookup)
    (draws : List (List ℤ)) (obs : List ℤ) (coi : ℤ) (af : List ℝ)
    (eps_neg eps_pos : ℝ) : ℝ :=
  let D := min P.importance_sampling_depth (lk.sampling_depth coi.toNat af.length)
  let q := reweight_allele_frequencies af obs eps_neg eps_pos
  let importance_probabilities := calc_genotype_log_pmf lk.lgamma draws coi q D
  let g_star_probabilities := calc_genotype_log_pmf lk.lgamma draws coi af D
  let g_given_g_star_probabilities := calc_obs_genotype_lliks obs draws eps_neg eps_pos D
  let res := ((List.range D).map (fun i =>
    Real.exp (g_given_g_star_probabilities.getD i 0
      + g_star_probabilities.getD i 0
      - importance_probabilities.getD i 0))).sum
  Real.log (res / D)

/-- IEEE double-precision `exp`: underflows to exactly 0 for arguments below
about -745.  This models the `exp` call on line 281 of chain.cpp as executed
on `double` log-weights. -/
def expD (x : ℝ) : ℝ := if x < -745 then 0 else Real.exp x

/-- The accumulator `res` of `Chain::calc_genotype_marginal_llik`
(chain.cpp lines 279-284) under double-precision `exp`: the naive sum of
exponentials of the `D` per-draw log weights `w`, with no max subtraction. -/
def marginal_llik_presum_fp (D : ℕ) (w : ℕ → ℝ) : ℝ :=
  ((List.range D).map (fun i => expD (w i))).sum

/-- Per-allele presence counts of `Chain::initialize_p` (chain.cpp lines
10-39): `total_locus_alleles[j][k]` accumulates `observed_alleles[j][i][k]`
over samples `i`. -/
def total_locus_alleles (obs_locus : List (List ℤ)) (k : ℕ) : ℤ :=
  (obs_locus.map (fun row => row.getD k 0)).sum

/-- Total allele count of `Chain::initialize_p` (chain.cpp lines 10-39):
`total_alleles[j]` accumulates every entry of every sample's observation. -/
def total_alleles (obs_locus : List (List ℤ)) : ℤ :=
  (obs_locus.map (fun row => row.sum)).sum

/-- The allele-frequency row produced by `Chain::initialize_p` for one locus
(chain.cpp line 36): `p[j][a] = total_locus_alleles[j][a] / total_alleles[j]`.
(The stray `push_back` calls on lines 17-18 and 28 write only to indices that
are never read back; the entries actually produced are exactly these.) -/
def initialize_p_locus (num_alleles : ℕ) (obs_locus : List (List ℤ)) : List ℝ :=
  (List.range num_alleles).map (fun k =>
    (total_locus_alleles obs_locus k : ℝ) / (total_alleles obs_locus : ℝ))

/-- Indexing a range-map list inside its bounds evaluates the function. -/
lemma getD_range_map {α : Type} (f : ℕ → α) (d : α) {n i : ℕ} (h : i < n) :
    ((List.range n).map f).getD i d = f i := by
  rw [List.getD_eq_getElem?_getD, List.getElem?_map, List.getElem?_range h]
  rfl

/-- Sum of a range-map list as a `Finset.range` sum. -/
lemma list_range_map_sum (f : ℕ → ℝ) (n : ℕ) :
    ((List.range n).map f).sum = ∑ i ∈ Finset.range n, f i := by
  induction n with
  | zero => simp
  | succ k ih =>
    rw [List.range_succ, Finset.sum_range_succ, List.map_append, List.sum_append, ih]
    simp

/-- A predicate true of the default and of every list element holds of `getD`. -/
lemma getD_pred {α : Type} (P : α → Prop) (d : α) (hd : P d) (l : List α)
    (h : ∀ x ∈ l, P x) (a : ℕ) : P (l.getD a d) := by
  induction l generalizing a with
  | nil => simpa [List.getD] using hd
  | cons x xs ih =>
    cases a with
    | zero => exact h x (by simp)
    | succ b =>
      simpa [List.getD_cons_succ] using ih (fun y hy => h y (by simp [hy])) b

/-- C1: `Chain::calc_genotype_marginal_llik` returns
log((1/D) · Σ_d exp(log ℙ(obs|g⁽ᵈ⁾) + log p*(g⁽ᵈ⁾) − log q(g⁽ᵈ⁾))) where
D = min(importance_sampling_depth, sampling_depth[coi][A]), q is the
reweighted proposal, and the g⁽ᵈ⁾ are the multinomial draws supplied by the
sampler. -/
theorem calc_genotype_marginal_llik_eq_importance_formula (P : Parameters)
    (lk : Lookup) (draws : List (List ℤ)) (obs : List ℤ) (coi : ℤ)
    (af : List ℝ) (eps_neg eps_pos : ℝ) :
    calc_genotype_marginal_llik P lk draws obs coi af eps_neg eps_pos =
      Real.log
        ((1 / ((min P.importance_sampling_depth
            (lk.sampling_depth coi.toNat af.length) : ℕ) : ℝ)) *
          ∑ d ∈ Finset.range (min P.importance_sampling_depth
              (lk.sampling_depth coi.toNat af.length)),
            Real.exp (calc_obs_genotype_llik_one obs (draws.getD d []) eps_neg eps_pos
              + calc_genotype_log_pmf_one lk.lgamma coi af (draws.getD d [])
              - calc_genotype_log_pmf_one lk.lgamma coi
                  (reweight_allele_frequencies af obs eps_neg eps_pos)
                  (draws.getD d []))) := by
  simp only [calc_genotype_marginal_llik]
  rw [div_eq_inv_mul, ← one_div]
  congr 1
  congr 1
  rw [list_range_map_sum]
  refine Finset.sum_congr rfl (fun d hd => ?_)
  rw [Finset.mem_range] at hd
  simp only [calc_obs_genotype_lliks, calc_genotype_log_pmf]
  rw [getD_range_map _ _ hd, getD_range_map _ _ hd, getD_range_map _ _ hd]

/-- C8: `Chain::calc_genotype_log_pmf` computes, for a genotype with
non-negative counts, exactly lgamma(coi+1) − Σ_a lgamma(g_a+1)
+ Σ_a g_a·log(π_a + 1e-12); the code skips alleles with g_a = 0, which is
harmless because lgamma(1) = 0 makes each such allele contribute zero. -/
theorem calc_genotype_log_pmf_one_closed_form (lg : ℕ → ℝ) (coi : ℤ)
    (af : List ℝ) (g : List ℤ) (hlg : lg 1 = 0) (hg : ∀ x ∈ g, 0 ≤ x) :
    calc_genotype_log_pmf_one lg coi af g =
      lg (coi.toNat + 1)
        - (∑ a ∈ Finset.range af.length, lg ((g.getD a 0).toNat + 1))
        + ∑ a ∈ Finset.range af.length,
            (g.getD a 0 : ℝ) * Real.log (af.getD a 0 + 1e-12) := by
  unfold calc_genotype_log_pmf_one
  rw [list_range_map_sum]
  have h : ∀ a ∈ Finset.range af.length,
      (if 0 < g.getD a 0 then
        (g.getD a 0 : ℝ) * Real.log (af.getD a 0 + 1e-12)
          - lg ((g.getD a 0).toNat + 1)
      else 0)
        = (g.getD a 0 : ℝ) * Real.log (af.getD a 0 + 1e-12)
            - lg ((g.getD a 0).toNat + 1) := by
    intro a _
    by_cases hpos : 0 < g.getD a 0
    · rw [if_pos hpos]
    · rw [if_neg hpos]
      have h0 : g.getD a 0 = 0 :=
        le_antisymm (not_lt.mp hpos) (getD_pred (fun x => 0 ≤ x) 0 le_rfl g hg a)
      rw [h0]
      simp [hlg]
  rw [Finset.sum_congr rfl h, Finset.sum_sub_distrib]
  ring

/-- Witness for C8 at lg ≡ 0, coi = 2, af = [1/2, 1/2], g = [1, 1]. -/
theorem calc_genotype_log_pmf_one_closed_form_witness :
    ((fun _ : ℕ => (0:ℝ)) 1 = 0) ∧ (∀ x ∈ ([1, 1] : List ℤ), 0 ≤ x) ∧
    calc_genotype_log_pmf_one (fun _ => 0) 2 [1/2, 1/2] [1, 1] =
      0 - (∑ _a ∈ Finset.range (([(1:ℝ)/2, 1/2] : List ℝ).length), (0:ℝ))
        + ∑ a ∈ Finset.range (([(1:ℝ)/2, 1/2] : List ℝ).length),
            ((([1, 1] : List ℤ).getD a 0 : ℝ))
              * Real.log ((([(1:ℝ)/2, 1/2] : List ℝ).getD a 0) + 1e-12) :=
  ⟨rfl, by decide,
    calc_genotype_log_pmf_one_closed_form (fun _ => 0) 2 [1/2, 1/2] [1, 1] rfl
      (by decide)⟩

/-- Sum of a list after multiplying every entry on the right. -/
lemma list_sum_map_mul_right (l : List ℝ) (c : ℝ) :
    (l.map (fun x => x * c)).sum = l.sum * c := by
  induction l with
  | nil => simp
  | cons x xs ih => simp [ih, add_mul]

/-- C3: each entry of `Chain::calc_obs_genotype_lliks` is the sum over
alleles a of: g_a·log(1−ε⁻) when obs_a = 1 and g_a > 0; log(ε⁺) when
obs_a = 1 and g_a = 0; g_a·log(ε⁻) when obs_a = 0 and g_a > 0; log(1−ε⁺)
when obs_a = 0 and g_a = 0. -/
theorem calc_obs_genotype_lliks_eq_emission_table (obs : List ℤ)
    (true_genotypes : List (List ℤ)) (eps_neg eps_pos : ℝ)
    (num_genotypes i : ℕ) (hobs : ∀ x ∈ obs, x = 0 ∨ x = 1)
    (hg : ∀ g ∈ true_genotypes, ∀ x ∈ g, 0 ≤ x) (hi : i < num_genotypes) :
    (calc_obs_genotype_lliks obs true_genotypes eps_neg eps_pos
        num_genotypes).getD i 0 =
      ∑ a ∈ Finset.range (true_genotypes.getD i []).length,
        (if obs.getD a 0 = 1 then
          (if 0 < (true_genotypes.getD i []).getD a 0 then
            ((true_genotypes.getD i []).getD a 0 : ℝ) * Real.log (1 - eps_neg)
          else Real.log eps_pos)
        else
          (if 0 < (true_genotypes.getD i []).getD a 0 then
            ((true_genotypes.getD i []).getD a 0 : ℝ) * Real.log eps_neg
          else Real.log (1 - eps_pos))) := by
  unfold calc_obs_genotype_lliks
  rw [getD_range_map _ _ hi]
  unfold calc_obs_genotype_llik_one
  rw [list_range_map_sum]
  refine Finset.sum_congr rfl (fun a _ => ?_)
  have hrow : ∀ x ∈ true_genotypes.getD i [], 0 ≤ x :=
    getD_pred (fun row => ∀ x ∈ row, 0 ≤ x) [] (by simp) true_genotypes hg i
  have hga : 0 ≤ (true_genotypes.getD i []).getD a 0 :=
    getD_pred (fun x => 0 ≤ x) 0 le_rfl _ hrow a
  have hoa : obs.getD a 0 = 0 ∨ obs.getD a 0 = 1 :=
    getD_pred (fun x => x = 0 ∨ x = 1) 0 (Or.inl rfl) obs hobs a
  rcases hoa with h0 | h1
  · rw [h0]
    rw [if_neg (show ¬((0:ℤ) ≠ 0) by norm_num)]
    rw [if_neg (show ¬((0:ℤ) = 1) by norm_num)]
    by_cases hp : 0 < (true_genotypes.getD i []).getD a 0
    · rw [if_pos (ne_of_gt hp), if_pos hp]
    · have hz : (true_genotypes.getD i []).getD a 0 = 0 :=
        le_antisymm (not_lt.mp hp) hga
      rw [if_neg (fun hne => hne hz), if_neg hp]
  · rw [h1]
    rw [if_pos (show ((1:ℤ) ≠ 0) by norm_num)]
    rw [if_pos (show ((1:ℤ) = 1) from rfl)]
    by_cases hp : 0 < (true_genotypes.getD i []).getD a 0
    · rw [if_pos (ne_of_gt hp), if_pos hp]
    · have hz : (true_genotypes.getD i []).getD a 0 = 0 :=
        le_antisymm (not_lt.mp hp) hga
      rw [if_neg (fun hne => hne hz), if_neg hp]

/-- Witness for C3 at obs = [1,0], one genotype [2,0], ε⁻ = 1/3, ε⁺ = 1/4. -/
theorem calc_obs_genotype_lliks_eq_emission_table_witness :
    (∀ x ∈ ([1, 0] : List ℤ), x = 0 ∨ x = 1) ∧
    (∀ g ∈ ([[2, 0]] : List (List ℤ)), ∀ x ∈ g, 0 ≤ x) ∧ 0 < 1 ∧
    (calc_obs_genotype_lliks [1, 0] [[2, 0]] ((1:ℝ)/3) (1/4) 1).getD 0 0 =
      ∑ a ∈ Finset.range (([[2, 0]] : List (List ℤ)).getD 0 []).length,
        (if ([1, 0] : List ℤ).getD a 0 = 1 then
          (if 0 < (([[2, 0]] : List (List ℤ)).getD 0 []).getD a 0 then
            ((([[2, 0]] : List (List ℤ)).getD 0 []).getD a 0 : ℝ)
              * Real.log (1 - (1:ℝ)/3)
          else Real.log ((1:ℝ)/4))
        else
          (if 0 < (([[2, 0]] : List (List ℤ)).getD 0 []).getD a 0 then
            ((([[2, 0]] : List (List ℤ)).getD 0 []).getD a 0 : ℝ)
              * Real.log ((1:ℝ)/3)
          else Real.log (1 - (1:ℝ)/4))) :=
  ⟨by decide, by decide, by norm_num,
    calc_obs_genotype_lliks_eq_emission_table [1, 0] [[2, 0]] (1/3) (1/4) 1 0
      (by decide) (by decide) (by norm_num)⟩

/-- C5: `Chain::reweight_allele_frequencies` returns a vector of the same
length whose entries are strictly positive and sum to 1. -/
theorem reweight_allele_frequencies_simplex (af : List ℝ) (obs : List ℤ)
    (eps_neg eps_pos : ℝ) (hlen : 0 < af.length) (haf : ∀ x ∈ af, 0 ≤ x)
    (hobs : ∀ x ∈ obs, x = 0 ∨ x = 1) (hen0 : 0 < eps_neg)
    (hen1 : eps_neg < 1) (hep : 0 ≤ eps_pos) :
    (reweight_allele_frequencies af obs eps_neg eps_pos).length = af.length ∧
    (reweight_allele_frequencies af obs eps_neg eps_pos).sum = 1 ∧
    ∀ x ∈ reweight_allele_frequencies af obs eps_neg eps_pos, 0 < x := by
  have hfac : ∀ i : ℕ,
      0 < af.getD i 0 * (((obs.getD i 0 : ℝ)) * (1 - eps_neg)
        + (1 - (obs.getD i 0 : ℝ)) * eps_neg) + eps_pos + 1e-6 := by
    intro i
    have ha : 0 ≤ af.getD i 0 := getD_pred (fun x => 0 ≤ x) 0 le_rfl af haf i
    have ho : obs.getD i 0 = 0 ∨ obs.getD i 0 = 1 :=
      getD_pred (fun x => x = 0 ∨ x = 1) 0 (Or.inl rfl) obs hobs i
    have hw : 0 ≤ ((obs.getD i 0 : ℝ)) * (1 - eps_neg)
        + (1 - (obs.getD i 0 : ℝ)) * eps_neg := by
      rcases ho with h | h <;> rw [h] <;> push_cast <;> nlinarith
    nlinarith [mul_nonneg ha hw]
  have hraw : ∀ x ∈ reweight_raw af obs eps_neg eps_pos, 0 < x := by
    intro x hx
    unfold reweight_raw at hx
    rcases List.mem_map.mp hx with ⟨i, _, rfl⟩
    exact hfac i
  have hsum : 0 < (reweight_raw af obs eps_neg eps_pos).sum := by
    unfold reweight_raw
    rw [list_range_map_sum]
    exact Finset.sum_pos (fun i _ => hfac i)
      (Finset.nonempty_range_iff.mpr hlen.ne')
  refine ⟨?_, ?_, ?_⟩
  · simp only [reweight_allele_frequencies]
    rw [List.length_map]
    unfold reweight_raw
    rw [List.length_map, List.length_range]
  · simp only [reweight_allele_frequencies]
    rw [list_sum_map_mul_right, mul_one_div, div_self hsum.ne']
  · simp only [reweight_allele_frequencies]
    intro x hx
    rcases List.mem_map.mp hx with ⟨y, hy, rfl⟩
    exact mul_pos (hraw y hy) (one_div_pos.mpr hsum)

/-- Witness for C5 at af = [1/2, 1/2], obs = [1, 0], ε⁻ = 1/2, ε⁺ = 0. -/
theorem reweight_allele_frequencies_simplex_witness :
    0 < ([(1:ℝ)/2, 1/2] : List ℝ).length ∧
    (reweight_allele_frequencies [(1:ℝ)/2, 1/2] [1, 0] (1/2) 0).length =
      ([(1:ℝ)/2, 1/2] : List ℝ).length ∧
    (reweight_allele_frequencies [(1:ℝ)/2, 1/2] [1, 0] (1/2) 0).sum = 1 ∧
    ∀ x ∈ reweight_allele_frequencies [(1:ℝ)/2, 1/2] [1, 0] (1/2) 0, 0 < x := by
  have h := reweight_allele_frequencies_simplex [(1:ℝ)/2, 1/2] [1, 0] (1/2) 0
    (by norm_num)
    (by
      intro x hx
      simp only [List.mem_cons, List.not_mem_nil, or_false] at hx
      rcases hx with h | h <;> norm_num [h])
    (by decide) (by norm_num) (by norm_num) (by norm_num)
  exact ⟨by norm_num, h.1, h.2.1, h.2.2⟩

/-- C2 (refuted mechanism): with D = 2 and both per-draw log weights equal
to −1000, double-precision `exp` underflows each term to 0 and the naive
accumulator `res` of `Chain::calc_genotype_marginal_llik` is exactly 0, so
the code returns log 0 = −∞ instead of the mandated log-sum-exp fallback
value −1000 − log 2. -/
theorem marginal_llik_presum_underflows_to_zero :
    marginal_llik_presum_fp 2 (fun _ => -1000) = 0 := by
  unfold marginal_llik_presum_fp expD
  norm_num [List.range_succ]

/-- Mutable chain state (chain.h members mutated in chain.cpp). -/
structure ChainState where
  m : List ℤ
  p : List (List ℝ)
  eps_pos : ℝ
  eps_neg : ℝ
  llik_old : List (List ℝ)
  llik_new : List (List ℝ)
  m_prop_mean : List ℝ
  p_prop_var : List ℝ
  eps_pos_var : ℝ
  eps_neg_var : ℝ
  m_accept : List ℤ
  p_accept : List ℤ
  eps_pos_accept : ℤ
  eps_neg_accept : ℤ
  llik : ℝ

/-- Read one cell of a (locus, sample) matrix. -/
def cell (mat : List (List ℝ)) (j i : ℕ) : ℝ := (mat.getD j []).getD i 0

/-- The nested loop `for j < L: for i < N: mat[j][i] = f j i` of the ε update
blocks: cells inside the L×N block are overwritten, others untouched. -/
def writeBlock (L N : ℕ) (mat : List (List ℝ)) (f : ℕ → ℕ → ℝ) :
    List (List ℝ) :=
  mat.mapIdx (fun j row =>
    if j < L then row.mapIdx (fun i x => if i < N then f j i else x) else row)

/-- The loop `for j < L: mat[j][i] = f j` of the m block (one sample column). -/
def writeCol (L : ℕ) (i : ℕ) (mat : List (List ℝ)) (f : ℕ → ℝ) :
    List (List ℝ) :=
  mat.mapIdx (fun j row => if j < L then row.set i (f j) else row)

/-- The loop `for i < N: mat[j][i] = f i` of the p block (one locus row). -/
def writeRowJ (N : ℕ) (j : ℕ) (mat : List (List ℝ)) (f : ℕ → ℝ) :
    List (List ℝ) :=
  mat.set j ((mat.getD j []).mapIdx (fun i x => if i < N then f i else x))

/-- Sum over the L×N block, as in the `sum_can` / `sum_orig` accumulations. -/
def blockSum (L N : ℕ) (f : ℕ → ℕ → ℝ) : ℝ :=
  ∑ j ∈ Finset.range L, ∑ i ∈ Finset.range N, f j i

/-- Sampler draws consumed by one sample of `Chain::update_m`: the COI delta,
the log-MH acceptance draw, and the genotype draws for every locus. -/
structure MInput where
  delta : ℤ
  mh : ℝ
  draws : List (List (List ℤ))

/-- Sampler draws consumed by one locus of `Chain::update_p`: the proposed
frequency vector, the log-MH draw, and the genotype draws for every sample. -/
structure PInput where
  prop_p : List ℝ
  mh : ℝ
  draws : List (List (List ℤ))

/-- One iteration of the sample loop of `Chain::update_m` (chain.cpp lines
60-97) for sample `i`. -/
def update_m_sample (P : Parameters) (lk : Lookup) (gd : GenotypingData)
    (it : ℕ) (i : ℕ) (inp : MInput) (s : ChainState) : ChainState :=
  let prop_m := inp.delta + s.m.getD i 0
  if prop_m = s.m.getD i 0 then
    { s with
      m_prop_mean := s.m_prop_mean.set i
        (s.m_prop_mean.getD i 0 + (1 - 0.23) / Real.sqrt (it : ℝ)),
      m_accept := s.m_accept.set i (s.m_accept.getD i 0 + 1) }
  else if P.max_coi ≥ prop_m ∧ prop_m > 0 then
    let f : ℕ → ℝ := fun j =>
      calc_genotype_marginal_llik P lk (inp.draws.getD j [])
        ((gd.observed_alleles.getD j []).getD i []) prop_m (s.p.getD j [])
        s.eps_neg s.eps_pos
    let sum_can := ∑ j ∈ Finset.range gd.num_loci, f j
    let sum_orig := ∑ j ∈ Finset.range gd.num_loci, cell s.llik_old j i
    let sNew := { s with llik_new := writeCol gd.num_loci i s.llik_new f }
    if inp.mh ≤ sum_can - sum_orig then
      { sNew with
        m := s.m.set i prop_m,
        m_prop_mean := s.m_prop_mean.set i
          (s.m_prop_mean.getD i 0 + (1 - 0.23) / Real.sqrt (it : ℝ)),
        m_accept := s.m_accept.set i (s.m_accept.getD i 0 + 1),
        llik_old := writeCol gd.num_loci i s.llik_old f }
    else
      { sNew with
        m_prop_mean := s.m_prop_mean.set i
          (if s.m_prop_mean.getD i 0 - 0.23 / Real.sqrt (it : ℝ) < 0 then 0
           else s.m_prop_mean.getD i 0 - 0.23 / Real.sqrt (it : ℝ)) }
  else s

/-- `Chain::update_m` (chain.cpp lines 60-97): the per-sample body applied
for every sample index in order. -/
def update_m (P : Parameters) (lk : Lookup) (gd : GenotypingData)
    (inputs : List MInput) (it : ℕ) (s : ChainState) : ChainState :=
  (List.range gd.num_samples).foldl
    (fun st i => update_m_sample P lk gd it i (inputs.getD i ⟨0, 0, []⟩) st) s

/-- One iteration of the locus loop of `Chain::update_p` (chain.cpp lines
99-126) for locus `j`. -/
def update_p_locus (P : Parameters) (lk : Lookup) (gd : GenotypingData)
    (it : ℕ) (j : ℕ) (inp : PInput) (s : ChainState) : ChainState :=
  let f : ℕ → ℝ := fun i =>
    calc_genotype_marginal_llik P lk (inp.draws.getD i [])
      ((gd.observed_alleles.getD j []).getD i []) (s.m.getD i 0) inp.prop_p
      s.eps_neg s.eps_pos
  let sum_can := ∑ i ∈ Finset.range gd.num_samples, f i
  let sum_orig := ∑ i ∈ Finset.range gd.num_samples, cell s.llik_old j i
  let sNew := { s with llik_new := writeRowJ gd.num_samples j s.llik_new f }
  if inp.mh ≤ sum_can - sum_orig then
    { sNew with
      p := s.p.set j inp.prop_p,
      p_accept := s.p_accept.set j (s.p_accept.getD j 0 + 1),
      p_prop_var := s.p_prop_var.set j
        (Real.exp (Real.log (s.p_prop_var.getD j 0)
          + (1 - 0.23) / Real.sqrt (it : ℝ))),
      llik_old := writeRowJ gd.num_samples j s.llik_old f }
  else
    { sNew with
      p_prop_var := s.p_prop_var.set j
        (Real.exp (Real.log (s.p_prop_var.getD j 0)
          - 0.23 / Real.sqrt (it : ℝ))) }

/-- `Chain::update_p` (chain.cpp lines 99-126): the per-locus body applied
for every locus index in order. -/
def update_p (P : Parameters) (lk : Lookup) (gd : GenotypingData)
    (inputs : List PInput) (it : ℕ) (s : ChainState) : ChainState :=
  (List.range gd.num_loci).foldl
    (fun st j => update_p_locus P lk gd it j (inputs.getD j ⟨[], 0, []⟩) st) s

/-- `Chain::update_eps_pos` (chain.cpp lines 128-163): out-of-range proposals
fall through with no state change; otherwise the full llik matrix is
recomputed with the proposed ε⁺ and an MH step decides. -/
def update_eps_pos (P : Parameters) (lk : Lookup) (gd : GenotypingData)
    (draws : List (List (List (List ℤ)))) (prop mh : ℝ) (it : ℕ)
    (s : ChainState) : ChainState :=
  if prop < P.max_eps_pos ∧ prop > 0 then
    let f : ℕ → ℕ → ℝ := fun j i =>
      calc_genotype_marginal_llik P lk ((draws.getD j []).getD i [])
        ((gd.observed_alleles.getD j []).getD i []) (s.m.getD i 0)
        (s.p.getD j []) s.eps_neg prop
    let sum_can := blockSum gd.num_loci gd.num_samples f
    let sum_orig := blockSum gd.num_loci gd.num_samples (cell s.llik_old)
    let sNew :=
      { s with llik_new := writeBlock gd.num_loci gd.num_samples s.llik_new f }
    if mh ≤ sum_can - sum_orig then
      { sNew with
        eps_pos := prop,
        eps_pos_var := s.eps_pos_var + (1 - 0.23) / Real.sqrt (it : ℝ),
        eps_pos_accept := s.eps_pos_accept + 1,
        llik_old := writeBlock gd.num_loci gd.num_samples s.llik_old f }
    else
      { sNew with
        eps_pos_var :=
          if s.eps_pos_var - 0.23 / Real.sqrt (it : ℝ) < UNDERFLO then UNDERFLO
          else s.eps_pos_var - 0.23 / Real.sqrt (it : ℝ) }
  else s

/-- `Chain::update_eps_neg` (chain.cpp lines 165-198), symmetric to the ε⁺
block with the proposed ε⁻ substituted in the kernel call. -/
def update_eps_neg (P : Parameters) (lk : Lookup) (gd : GenotypingData)
    (draws : List (List (List (List ℤ)))) (prop mh : ℝ) (it : ℕ)
    (s : ChainState) : ChainState :=
  if prop < P.max_eps_neg ∧ prop > 0 then
    let f : ℕ → ℕ → ℝ := fun j i =>
      calc_genotype_marginal_llik P lk ((draws.getD j []).getD i [])
        ((gd.observed_alleles.getD j []).getD i []) (s.m.getD i 0)
        (s.p.getD j []) prop s.eps_pos
    let sum_can := blockSum gd.num_loci gd.num_samples f
    let sum_orig := blockSum gd.num_loci gd.num_samples (cell s.llik_old)
    let sNew :=
      { s with llik_new := writeBlock gd.num_loci gd.num_samples s.llik_new f }
    if mh ≤ sum_can - sum_orig then
      { sNew with
        eps_neg := prop,
        eps_neg_var := s.eps_neg_var + (1 - 0.23) / Real.sqrt (it : ℝ),
        eps_neg_accept := s.eps_neg_accept + 1,
        llik_old := writeBlock gd.num_loci gd.num_samples s.llik_old f }
    else
      { sNew with
        eps_neg_var :=
          if s.eps_neg_var - 0.23 / Real.sqrt (it : ℝ) < UNDERFLO then UNDERFLO
          else s.eps_neg_var - 0.23 / Real.sqrt (it : ℝ) }
  else s

/-- `Chain::calculate_llik` (chain.cpp lines 308-315): overwrite the `llik`
member with the sum of `llik_old` over all loci and samples. -/
def calculate_llik (gd : GenotypingData) (s : ChainState) : ChainState :=
  { s with llik := blockSum gd.num_loci gd.num_samples (cell s.llik_old) }

/-- `Chain::get_llik` (chain.cpp lines 317-320): recompute `llik` and return
it; the pair is (returned value, state after the call). -/
def get_llik (gd : GenotypingData) (s : ChainState) : ℝ × ChainState :=
  ((calculate_llik gd s).llik, calculate_llik gd s)

/-- C7: an ε proposal outside (0, max) makes the block fall through: the
whole chain state (ε values, variances, counters, both llik caches) is
returned exactly as it was, with no adaptation. -/
theorem update_eps_out_of_range_noop (P : Parameters) (lk : Lookup)
    (gd : GenotypingData) (drawsP drawsN : List (List (List (List ℤ))))
    (prop_pos mh_pos prop_neg mh_neg : ℝ) (it it2 : ℕ) (s s2 : ChainState)
    (hpos : ¬(prop_pos < P.max_eps_pos ∧ prop_pos > 0))
    (hneg : ¬(prop_neg < P.max_eps_neg ∧ prop_neg > 0)) :
    update_eps_pos P lk gd drawsP prop_pos mh_pos it s = s ∧
    update_eps_neg P lk gd drawsN prop_neg mh_neg it2 s2 = s2 := by
  constructor
  · unfold update_eps_pos
    rw [if_neg hpos]
  · unfold update_eps_neg
    rw [if_neg hneg]

/-- C10: `get_llik` returns the sum of `llik_old` over all loci and samples
and leaves every chain parameter listed by the spec unchanged. -/
theorem get_llik_sum_and_readonly (gd : GenotypingData) (s : ChainState) :
    ((get_llik gd s).1 =
      ∑ j ∈ Finset.range gd.num_loci, ∑ i ∈ Finset.range gd.num_samples,
        cell s.llik_old j i) ∧
    (get_llik gd s).2.m = s.m ∧ (get_llik gd s).2.p = s.p ∧
    (get_llik gd s).2.eps_pos = s.eps_pos ∧
    (get_llik gd s).2.eps_neg = s.eps_neg ∧
    (get_llik gd s).2.llik_old = s.llik_old ∧
    (get_llik gd s).2.llik_new = s.llik_new ∧
    (get_llik gd s).2.m_prop_mean = s.m_prop_mean ∧
    (get_llik gd s).2.p_prop_var = s.p_prop_var ∧
    (get_llik gd s).2.eps_pos_var = s.eps_pos_var ∧
    (get_llik gd s).2.eps_neg_var = s.eps_neg_var ∧
    (get_llik gd s).2.m_accept = s.m_accept ∧
    (get_llik gd s).2.p_accept = s.p_accept ∧
    (get_llik gd s).2.eps_pos_accept = s.eps_pos_accept ∧
    (get_llik gd s).2.eps_neg_accept = s.eps_neg_accept :=
  ⟨rfl, rfl, rfl, rfl, rfl, rfl, rfl, rfl, rfl, rfl, rfl, rfl, rfl, rfl, rfl⟩

/-- C9: at a locus where every sample's observation is all zeros, both the
per-allele counts and the total count are zero, every entry of the initial
frequency row is the division 0 / 0 (NaN in IEEE doubles), and the row sum
is not 1, so the simplex invariant fails from construction. -/
theorem initialize_p_all_zero_locus (A : ℕ) (obs_locus : List (List ℤ))
    (hz : ∀ row ∈ obs_locus, ∀ x ∈ row, x = 0) :
    total_alleles obs_locus = 0 ∧
    (∀ k, total_locus_alleles obs_locus k = 0) ∧
    initialize_p_locus A obs_locus = (List.range A).map (fun _ => (0:ℝ) / 0) ∧
    (initialize_p_locus A obs_locus).sum ≠ 1 := by
  have ht : total_alleles obs_locus = 0 := by
    unfold total_alleles
    refine List.sum_eq_zero (fun x hx => ?_)
    rcases List.mem_map.mp hx with ⟨row, hrow, rfl⟩
    exact List.sum_eq_zero (fun y hy => hz row hrow y hy)
  have hk : ∀ k, total_locus_alleles obs_locus k = 0 := by
    intro k
    unfold total_locus_alleles
    refine List.sum_eq_zero (fun x hx => ?_)
    rcases List.mem_map.mp hx with ⟨row, hrow, rfl⟩
    exact getD_pred (fun x => x = 0) 0 rfl row (hz row hrow) k
  have h3 : initialize_p_locus A obs_locus =
      (List.range A).map (fun _ => (0:ℝ) / 0) := by
    unfold initialize_p_locus
    refine List.map_congr_left (fun k _ => ?_)
    rw [hk k, ht]
    norm_num
  refine ⟨ht, hk, h3, ?_⟩
  rw [h3]
  have : ((List.range A).map (fun _ => (0:ℝ) / 0)).sum = 0 :=
    List.sum_eq_zero (fun x hx => by
      rcases List.mem_map.mp hx with ⟨_, _, rfl⟩
      norm_num)
  rw [this]
  norm_num

/-- Witness for C9 at A = 2 and a single all-zero observation row. -/
theorem initialize_p_all_zero_locus_witness :
    total_alleles [[0, 0]] = 0 ∧ total_locus_alleles [[0, 0]] 0 = 0 ∧
    initialize_p_locus 2 [[0, 0]] = (List.range 2).map (fun _ => (0:ℝ) / 0) ∧
    (initialize_p_locus 2 [[0, 0]]).sum ≠ 1 := by
  have h := initialize_p_all_zero_locus 2 [[0, 0]] (by decide)
  exact ⟨h.1, h.2.1 0, h.2.2.1, h.2.2.2⟩

/-- Concrete parameters used to instantiate the block-update theorems. -/
def P0 : Parameters := ⟨5, 1/10, 1/10, 3⟩

/-- Concrete lookup tables: lgamma ≡ 0 and a sampling-depth cap of 1. -/
def lk0 : Lookup := ⟨fun _ => 0, fun _ _ => 1⟩

/-- Concrete data with one locus and zero samples: the block loops run but
touch no likelihood cells. -/
def gd0 : GenotypingData := ⟨1, 0, [[]]⟩

/-- A concrete chain state whose proposal variances sit at their floors. -/
def s0 : ChainState :=
  ⟨[1], [[1/2, 1/2]], 1/100, 1/100, [[]], [[]], [1], [UNDERFLO], 1, 1,
    [0], [0], 0, 0, 0⟩

/-- Witness for C7 at the out-of-range proposal 2 (max ε is 1/10). -/
theorem update_eps_out_of_range_noop_witness :
    update_eps_pos P0 lk0 gd0 [] 2 0 1 s0 = s0 ∧
    update_eps_neg P0 lk0 gd0 [] 2 0 1 s0 = s0 :=
  update_eps_out_of_range_noop P0 lk0 gd0 [] [] 2 0 2 0 1 1 s0 s0
    (by norm_num [P0]) (by norm_num [P0])

/-- The p-block body never touches the ε proposal variances. -/
lemma update_p_locus_eps_vars (P : Parameters) (lk : Lookup)
    (gd : GenotypingData) (it j : ℕ) (inp : PInput) (s : ChainState) :
    (update_p_locus P lk gd it j inp s).eps_pos_var = s.eps_pos_var ∧
    (update_p_locus P lk gd it j inp s).eps_neg_var = s.eps_neg_var := by
  simp only [update_p_locus]
  split <;> exact ⟨rfl, rfl⟩

/-- The p-block body keeps every p_prop_var entry strictly positive: both
branches write exp of a real number. -/
lemma update_p_locus_p_prop_var_pos (P : Parameters) (lk : Lookup)
    (gd : GenotypingData) (it j : ℕ) (inp : PInput) (s : ChainState)
    (h : ∀ v ∈ s.p_prop_var, 0 < v) :
    ∀ v ∈ (update_p_locus P lk gd it j inp s).p_prop_var, 0 < v := by
  simp only [update_p_locus]
  split <;>
    · intro v hv
      rcases List.mem_or_eq_of_mem_set hv with h2 | h2
      · exact h v h2
      · rw [h2]
        exact Real.exp_pos _

/-- `update_p` never touches the ε proposal variances. -/
lemma update_p_eps_vars (P : Parameters) (lk : Lookup) (gd : GenotypingData)
    (inputs : List PInput) (it : ℕ) (s : ChainState) :
    (update_p P lk gd inputs it s).eps_pos_var = s.eps_pos_var ∧
    (update_p P lk gd inputs it s).eps_neg_var = s.eps_neg_var := by
  unfold update_p
  generalize List.range gd.num_loci = l
  induction l generalizing s with
  | nil => exact ⟨rfl, rfl⟩
  | cons j rest ih =>
    rw [List.foldl_cons]
    rcases ih (update_p_locus P lk gd it j (inputs.getD j ⟨[], 0, []⟩) s) with
      ⟨h1, h2⟩
    rcases update_p_locus_eps_vars P lk gd it j (inputs.getD j ⟨[], 0, []⟩) s
      with ⟨h3, h4⟩
    exact ⟨h1.trans h3, h2.trans h4⟩

/-- `update_p` keeps every p_prop_var entry strictly positive. -/
lemma update_p_p_prop_var_pos (P : Parameters) (lk : Lookup)
    (gd : GenotypingData) (inputs : List PInput) (it : ℕ) (s : ChainState)
    (h : ∀ v ∈ s.p_prop_var, 0 < v) :
    ∀ v ∈ (update_p P lk gd inputs it s).p_prop_var, 0 < v := by
  unfold update_p
  generalize List.range gd.num_loci = l
  induction l generalizing s with
  | nil => exact h
  | cons j rest ih =>
    rw [List.foldl_cons]
    exact ih _ (update_p_locus_p_prop_var_pos P lk gd it j
      (inputs.getD j ⟨[], 0, []⟩) s h)

/-- The ε⁺ block floors its own variance at UNDERFLO and touches neither the
ε⁻ variance nor p_prop_var. -/
lemma update_eps_pos_var_ge (P : Parameters) (lk : Lookup)
    (gd : GenotypingData) (draws : List (List (List (List ℤ))))
    (prop mh : ℝ) (it : ℕ) (s : ChainState) (h : UNDERFLO ≤ s.eps_pos_var) :
    UNDERFLO ≤ (update_eps_pos P lk gd draws prop mh it s).eps_pos_var ∧
    (update_eps_pos P lk gd draws prop mh it s).eps_neg_var = s.eps_neg_var ∧
    (update_eps_pos P lk gd draws prop mh it s).p_prop_var = s.p_prop_var := by
  simp only [update_eps_pos]
  split
  · split
    · refine ⟨?_, rfl, rfl⟩
      have h2 : 0 ≤ (1 - 0.23) / Real.sqrt (it : ℝ) :=
        div_nonneg (by norm_num) (Real.sqrt_nonneg _)
      linarith
    · refine ⟨?_, rfl, rfl⟩
      split
      · exact le_refl _
      · next h2 => linarith [not_lt.mp h2]
  · exact ⟨h, rfl, rfl⟩

/-- The ε⁻ block floors its own variance at UNDERFLO and touches neither the
ε⁺ variance nor p_prop_var. -/
lemma update_eps_neg_var_ge (P : Parameters) (lk : Lookup)
    (gd : GenotypingData) (draws : List (List (List (List ℤ))))
    (prop mh : ℝ) (it : ℕ) (s : ChainState) (h : UNDERFLO ≤ s.eps_neg_var) :
    UNDERFLO ≤ (update_eps_neg P lk gd draws prop mh it s).eps_neg_var ∧
    (update_eps_neg P lk gd draws prop mh it s).eps_pos_var = s.eps_pos_var ∧
    (update_eps_neg P lk gd draws prop mh it s).p_prop_var = s.p_prop_var := by
  simp only [update_eps_neg]
  split
  · split
    · refine ⟨?_, rfl, rfl⟩
      have h2 : 0 ≤ (1 - 0.23) / Real.sqrt (it : ℝ) :=
        div_nonneg (by norm_num) (Real.sqrt_nonneg _)
      linarith
    · refine ⟨?_, rfl, rfl⟩
      split
      · exact le_refl _
      · next h2 => linarith [not_lt.mp h2]
  · exact ⟨h, rfl, rfl⟩

/-- C4 (amended): across update_p, update_eps_pos and update_eps_neg the two
ε proposal variances stay ≥ UNDERFLO (they are explicitly floored) and every
p_prop_var entry stays strictly positive; update_p applies no UNDERFLO floor
to p_prop_var, which can therefore drop below UNDERFLO on rejection. -/
theorem proposal_variance_stability_amended (P : Parameters) (lk : Lookup)
    (gd : GenotypingData) (inputs : List PInput)
    (drawsP drawsN : List (List (List (List ℤ))))
    (propP mhP propN mhN : ℝ) (it1 it2 it3 : ℕ) (s : ChainState)
    (h1 : UNDERFLO ≤ s.eps_pos_var) (h2 : UNDERFLO ≤ s.eps_neg_var)
    (h3 : ∀ v ∈ s.p_prop_var, 0 < v) :
    UNDERFLO ≤ (update_eps_neg P lk gd drawsN propN mhN it3
        (update_eps_pos P lk gd drawsP propP mhP it2
          (update_p P lk gd inputs it1 s))).eps_pos_var ∧
    UNDERFLO ≤ (update_eps_neg P lk gd drawsN propN mhN it3
        (update_eps_pos P lk gd drawsP propP mhP it2
          (update_p P lk gd inputs it1 s))).eps_neg_var ∧
    ∀ v ∈ (update_eps_neg P lk gd drawsN propN mhN it3
        (update_eps_pos P lk gd drawsP propP mhP it2
          (update_p P lk gd inputs it1 s))).p_prop_var, 0 < v := by
  rcases update_p_eps_vars P lk gd inputs it1 s with ⟨hp1, hp2⟩
  have hp3 := update_p_p_prop_var_pos P lk gd inputs it1 s h3
  rcases update_eps_pos_var_ge P lk gd drawsP propP mhP it2
    (update_p P lk gd inputs it1 s) (hp1 ▸ h1) with ⟨he1, he2, he3⟩
  rcases update_eps_neg_var_ge P lk gd drawsN propN mhN it3
    (update_eps_pos P lk gd drawsP propP mhP it2
      (update_p P lk gd inputs it1 s)) (he2.trans (hp2.trans rfl) ▸ h2)
    with ⟨hn1, hn2, hn3⟩
  refine ⟨hn2 ▸ he1, hn1, ?_⟩
  intro v hv
  rw [hn3, he3] at hv
  exact hp3 v hv

/-- Witness for the amended C4 at the concrete state s0. -/
theorem proposal_variance_stability_amended_witness :
    UNDERFLO ≤ (update_eps_neg P0 lk0 gd0 [] (1/50) 0 1
        (update_eps_pos P0 lk0 gd0 [] (1/50) 0 1
          (update_p P0 lk0 gd0 [] 1 s0))).eps_pos_var ∧
    UNDERFLO ≤ (update_eps_neg P0 lk0 gd0 [] (1/50) 0 1
        (update_eps_pos P0 lk0 gd0 [] (1/50) 0 1
          (update_p P0 lk0 gd0 [] 1 s0))).eps_neg_var ∧
    ∀ v ∈ (update_eps_neg P0 lk0 gd0 [] (1/50) 0 1
        (update_eps_pos P0 lk0 gd0 [] (1/50) 0 1
          (update_p P0 lk0 gd0 [] 1 s0))).p_prop_var, 0 < v :=
  proposal_variance_stability_amended P0 lk0 gd0 [] [] [] (1/50) 0 (1/50) 0
    1 1 1 s0 (by norm_num [s0, UNDERFLO]) (by norm_num [s0, UNDERFLO])
    (by
      intro v hv
      simp only [s0, List.mem_singleton] at hv
      rw [hv]
      norm_num [UNDERFLO])

/-- C4 (counterexample): starting with every proposal variance at or above
UNDERFLO, one rejected p-block update at iteration 1 leaves p_prop_var[0]
strictly below UNDERFLO: the code rescales it by exp(−0.23) with no floor. -/
theorem p_prop_var_drops_below_underflo :
    UNDERFLO ≤ s0.p_prop_var.getD 0 0 ∧ UNDERFLO ≤ s0.eps_pos_var ∧
    UNDERFLO ≤ s0.eps_neg_var ∧
    (update_p P0 lk0 gd0 [⟨[], 1, []⟩] 1 s0).p_prop_var.getD 0 0 < UNDERFLO := by
  have hU : (0:ℝ) < UNDERFLO := by norm_num [UNDERFLO]
  refine ⟨by norm_num [s0], by norm_num [s0, UNDERFLO], by norm_num [s0, UNDERFLO], ?_⟩
  have h1 : (update_p P0 lk0 gd0 [⟨[], 1, []⟩] 1 s0).p_prop_var =
      [Real.exp (Real.log UNDERFLO - 0.23 / Real.sqrt ((1:ℕ) : ℝ))] := by
    unfold update_p
    have hL : gd0.num_loci = 1 := rfl
    rw [hL, show List.range 1 = [0] from rfl, List.foldl_cons, List.foldl_nil]
    simp only [update_p_locus]
    rw [if_neg ?hrej]
    case hrej =>
      have hN : gd0.num_samples = 0 := rfl
      rw [hN]
      simp only [Finset.range_zero, Finset.sum_empty]
      norm_num
    simp [s0]
  rw [h1]
  simp only [List.getD_cons_zero]
  have hs : Real.sqrt ((1:ℕ) : ℝ) = 1 := by
    rw [Nat.cast_one, Real.sqrt_one]
  rw [hs, Real.exp_sub, Real.exp_log hU]
  have hgt : 1 < Real.exp (0.23 / 1) := by
    rw [Real.one_lt_exp_iff]
    norm_num
  exact div_lt_self hU hgt

/-- The m-block body for one sample preserves the COI bounds: an updated
entry is always the proposed value, which is committed only under the range
guard `max_coi ≥ prop ∧ prop > 0`. -/
lemma update_m_sample_coi_bounds (P : Parameters) (lk : Lookup)
    (gd : GenotypingData) (it i : ℕ) (inp : MInput) (s : ChainState)
    (h : ∀ x ∈ s.m, 1 ≤ x ∧ x ≤ P.max_coi) :
    ∀ x ∈ (update_m_sample P lk gd it i inp s).m, 1 ≤ x ∧ x ≤ P.max_coi := by
  simp only [update_m_sample]
  by_cases hsame : inp.delta + s.m.getD i 0 = s.m.getD i 0
  · rw [if_pos hsame]
    exact h
  · rw [if_neg hsame]
    by_cases hrange : P.max_coi ≥ inp.delta + s.m.getD i 0 ∧
        inp.delta + s.m.getD i 0 > 0
    · rw [if_pos hrange]
      split
      · intro x hx
        rcases List.mem_or_eq_of_mem_set hx with h2 | h2
        · exact h x h2
        · rw [h2]
          omega
      · exact h
    · rw [if_neg hrange]
      exact h

/-- The m-block body returns the state untouched when the proposed COI both
differs from the current one and lies outside [1, max_coi]. -/
lemma update_m_sample_out_of_range (P : Parameters) (lk : Lookup)
    (gd : GenotypingData) (it i : ℕ) (inp : MInput) (s : ChainState)
    (hne : inp.delta + s.m.getD i 0 ≠ s.m.getD i 0)
    (hout : ¬(P.max_coi ≥ inp.delta + s.m.getD i 0 ∧
      inp.delta + s.m.getD i 0 > 0)) :
    update_m_sample P lk gd it i inp s = s := by
  simp only [update_m_sample]
  rw [if_neg hne, if_neg hout]

/-- C6: `update_m` preserves `1 ≤ m[i] ≤ max_coi` for every sample, and a
proposal outside [1, max_coi] is rejected silently: the per-sample body
commits nothing, adapts nothing, and changes no state at all. -/
theorem update_m_coi_bounds (P : Parameters) (lk : Lookup)
    (gd : GenotypingData) (inputs : List MInput) (it : ℕ) (s : ChainState)
    (i : ℕ) (inp : MInput) (s2 : ChainState)
    (hinv : ∀ x ∈ s.m, 1 ≤ x ∧ x ≤ P.max_coi)
    (hne : inp.delta + s2.m.getD i 0 ≠ s2.m.getD i 0)
    (hout : ¬(P.max_coi ≥ inp.delta + s2.m.getD i 0 ∧
      inp.delta + s2.m.getD i 0 > 0)) :
    (∀ x ∈ (update_m P lk gd inputs it s).m, 1 ≤ x ∧ x ≤ P.max_coi) ∧
    update_m_sample P lk gd it i inp s2 = s2 := by
  refine ⟨?_, update_m_sample_out_of_range P lk gd it i inp s2 hne hout⟩
  unfold update_m
  generalize List.range gd.num_samples = l
  induction l generalizing s with
  | nil => exact hinv
  | cons a rest ih =>
    rw [List.foldl_cons]
    exact ih _ (update_m_sample_coi_bounds P lk gd it a
      (inputs.getD a ⟨0, 0, []⟩) s hinv)

/-- Witness for C6: current COI 1, bound 5, with an out-of-range proposal
1 + 10 = 11 for the silent-reject conjunct. -/
theorem update_m_coi_bounds_witness :
    (∀ x ∈ (update_m P0 lk0 gd0 [⟨0, 0, []⟩] 1 s0).m,
      1 ≤ x ∧ x ≤ P0.max_coi) ∧
    update_m_sample P0 lk0 gd0 1 0 ⟨10, 0, []⟩ s0 = s0 :=
  update_m_coi_bounds P0 lk0 gd0 [⟨0, 0, []⟩] 1 s0 0 ⟨10, 0, []⟩ s0
    (by
      intro x hx
      simp only [s0, List.mem_singleton] at hx
      rw [hx]
      norm_num [P0])
    (by norm_num [s0]) (by norm_num [s0, P0])

end

end MoiR
